import Mathlib

/-!
# Racer mutation-event dispatch and document lifecycle: a verification development

This file is a shallow embedding, in Lean 4, of the mutation-event dispatch
engine (`src/Model/events.js`) and the document reference-counting lifecycle
(`src/Model/subscriptions.ts`) of the racer model-synchronization layer,
together with theorems settling the frozen specification claims about them.

Embedding conventions:

* JavaScript's unbounded recursion is modelled with an explicit `fuel`
  parameter; every recursive call strictly decreases it, and running out is
  the distinguished error `EmitErr.outOfFuel`.  All theorems about successful
  runs are conditional on an `.ok` result, so the fuel is an artifact only.
* The per-type `EventListenerTree` is not part of the sources under
  verification (only `events.js` and `subscriptions.ts` are); its ordered
  wildcard lookup `tree.getWildcardListeners(segments)` is therefore
  abstracted as a function `Registry : String → Segments → List Listener`
  from an event-type key and a path to the ordered list of matching
  listeners, exactly the value consumed by `_callMutationListeners`.
* A listener body is modelled by the list of observable actions it performs
  against the model: emitting further mutation events (which re-enters
  `_emitMutation`) and raising an exception.
* Each listener invocation is recorded in an observation trace (`Entry`);
  the trace is instrumentation only and never influences control flow.
-/

namespace Racer

/-- A path, as the ordered list of its segments (`events.js` passes
`segments` arrays everywhere). -/
abbrev Segments := List String

/-- A mutation event, reduced to what dispatch inspects: its `type` tag
(`change`, `load`, ...) and an opaque payload identifying the event.  The
six event variants of `events.js` all expose `type` and `_immediateType`
prototype fields; dispatch never looks at the variant payloads. -/
structure MEvent where
  type : String
  payload : Nat
deriving DecidableEq, Repr

/-- The `_immediateType` tag of an event.  In `events.js` every variant sets
`_immediateType` to its `type` followed by `Immediate` (for example
`changeImmediate` for `change`). -/
def MEvent.immediateType (e : MEvent) : String := e.type ++ "Immediate"

/-- One observable action of a listener body: re-emit a mutation event
through `Model.prototype._emitMutation`, or raise an exception. -/
inductive Action where
  | emit (segments : Segments) (event : MEvent)
  | throwErr (msg : String)
deriving DecidableEq, Repr

/-- A listener is modelled by the ordered list of actions its callback
performs when invoked. -/
abbrev Listener := List Action

/-- Abstraction of `root._mutationListeners[type].getWildcardListeners(segments)`:
the ordered list of listeners that the per-type tree yields for a path. -/
abbrev Registry := String → Segments → List Listener

/-- Which call site of `_callMutationListeners` invoked a listener: the
unconditional pre-queue call on `event._immediateType` (line 91), or the
queued/ordered dispatch on `event.type` / `'all'` (lines 101-102, 118-119).
Pure instrumentation for the observation trace. -/
inductive Phase where
  | immediate
  | dispatch
deriving DecidableEq, Repr

/-- One listener invocation in the observation trace: the phase and tree key
used for lookup, the path and event delivered, and the listener's index in
the lookup result. -/
structure Entry where
  phase : Phase
  dtype : String
  segments : Segments
  event : MEvent
  idx : Nat
deriving DecidableEq, Repr

/-- A queued `{path, event}` pair (`root._mutationEventQueue` stores the two
components flat, pushed together; we keep them paired). -/
abbrev Item := Segments × MEvent

/-- The root model state read and written by `_emitMutation`:
`root._emittingMutation` and `root._mutationEventQueue` (`null` is `none`). -/
structure EmitState where
  emittingMutation : Bool
  mutationEventQueue : Option (List Item)
deriving DecidableEq, Repr

/-- Errors of a dispatch run: fuel exhaustion (embedding artifact), an
exception escaping a listener callback (not caught by the emitter), and the
fatal mutation-cycle error of lines 105-112, which carries the offending
queue contents exactly as the thrown message serializes them. -/
inductive EmitErr where
  | outOfFuel
  | listenerThrow (msg : String)
  | cycle (queue : List Item)
deriving DecidableEq, Repr

/-- Result of a dispatch computation: an error, or the final state together
with the trace of listener invocations it performed. -/
abbrev EmitResult := Except EmitErr (EmitState × List Entry)

/-- Lines 93-97 of `events.js`: push a `{path, event}` pair onto
`root._mutationEventQueue`, creating the array if it is `null`. -/
def queuePush (q : Option (List Item)) (s : Segments) (e : MEvent) :
    Option (List Item) :=
  match q with
  | some items => some (items ++ [(s, e)])
  | none => some [(s, e)]

mutual

/-- `Model.prototype._emitMutation` (`events.js` lines 88-123).  The `silent`
argument is the calling scope's `_silent` flag (line 89).  The immediate-type
listeners are always invoked first (line 91); if an emission is in flight the
pair is queued and the call returns (lines 92-99); otherwise the in-flight
flag is set, the event's own-type and `'all'`-type listeners are dispatched
(lines 100-102), the pending queue is drained with an iteration budget of
1000 passes (lines 103-121), and the flag is cleared (line 122). -/
def emitMutation (reg : Registry) : Bool → Nat → Segments → MEvent → EmitState → EmitResult
  | true, _, _, _, st => .ok (st, [])
  | false, 0, _, _, _ => .error .outOfFuel
  | false, fuel + 1, segments, event, st =>
    match callMutationListeners reg fuel .immediate event.immediateType segments event st with
    | .error err => .error err
    | .ok (st1, tr1) =>
      if st1.emittingMutation then
        .ok ({ st1 with
                mutationEventQueue := queuePush st1.mutationEventQueue segments event },
             tr1)
      else
        match callMutationListeners reg fuel .dispatch event.type segments event
            { st1 with emittingMutation := true } with
        | .error err => .error err
        | .ok (st2, tr2) =>
          match callMutationListeners reg fuel .dispatch "all" segments event st2 with
          | .error err => .error err
          | .ok (st3, tr3) =>
            match drainQueue reg fuel 1000 st3 with
            | .error err => .error err
            | .ok (st4, tr4) =>
              .ok ({ st4 with emittingMutation := false }, tr1 ++ tr2 ++ tr3 ++ tr4)

/-- `Model.prototype._callMutationListeners` (`events.js` lines 125-132):
look up the listeners for the given tree key and path and invoke each in
order.  The `Phase` argument records the call site in the trace. -/
def callMutationListeners (reg : Registry) :
    Nat → Phase → String → Segments → MEvent → EmitState → EmitResult
  | 0, _, _, _, _, _ => .error .outOfFuel
  | fuel + 1, ph, dtype, segments, event, st =>
    runListenerList reg fuel ph dtype segments event (reg dtype segments) 0 st

/-- The `for` loop of `_callMutationListeners`: invoke each listener of the
snapshot in order, recording an `Entry` per invocation. -/
def runListenerList (reg : Registry) :
    Nat → Phase → String → Segments → MEvent → List Listener → Nat → EmitState → EmitResult
  | _, _, _, _, _, [], _, st => .ok (st, [])
  | 0, _, _, _, _, _ :: _, _, _ => .error .outOfFuel
  | fuel + 1, ph, dtype, segments, event, actions :: rest, idx, st =>
    match runActions reg fuel actions st with
    | .error err => .error err
    | .ok (st1, tr1) =>
      match runListenerList reg fuel ph dtype segments event rest (idx + 1) st1 with
      | .error err => .error err
      | .ok (st2, tr2) =>
        .ok (st2, (Entry.mk ph dtype segments event idx :: tr1) ++ tr2)

/-- Run a listener body: perform its actions in order.  An emitted event
re-enters `_emitMutation` on a non-silent scope; a raised exception
propagates as `EmitErr.listenerThrow` (the emitter has no handler). -/
def runActions (reg : Registry) : Nat → List Action → EmitState → EmitResult
  | _, [], st => .ok (st, [])
  | _, .throwErr msg :: _, _ => .error (.listenerThrow msg)
  | 0, .emit _ _ :: _, _ => .error .outOfFuel
  | fuel + 1, .emit segments event :: rest, st =>
    match emitMutation reg false fuel segments event st with
    | .error err => .error err
    | .ok (st1, tr1) =>
      match runActions reg fuel rest st1 with
      | .error err => .error err
      | .ok (st2, tr2) => .ok (st2, tr1 ++ tr2)

/-- The `while (root._mutationEventQueue)` drain loop of `_emitMutation`
(lines 103-121).  `limit` is the remaining iteration budget: the JS code
starts it at 1000, decrements on entry to each pass, and throws the fatal
cycle error, with the queue contents, when it goes negative — so exactly
1000 full passes are permitted.  Each pass takes the entire current queue,
clears the field, and dispatches every queued event. -/
def drainQueue (reg : Registry) : Nat → Nat → EmitState → EmitResult
  | _, _, ⟨em, none⟩ => .ok (⟨em, none⟩, [])
  | _, 0, ⟨_, some queue⟩ => .error (.cycle queue)
  | 0, _ + 1, ⟨_, some _⟩ => .error .outOfFuel
  | fuel' + 1, limit' + 1, ⟨em, some queue⟩ =>
    match drainPass reg fuel' queue ⟨em, none⟩ with
    | .error err => .error err
    | .ok (st1, tr1) =>
      match drainQueue reg fuel' limit' st1 with
      | .error err => .error err
      | .ok (st2, tr2) => .ok (st2, tr1 ++ tr2)

/-- The `for` loop inside one drain pass (lines 115-120): for each queued
`{path, event}` pair, in queue order, dispatch the event's own-type and then
`'all'`-type listeners. -/
def drainPass (reg : Registry) : Nat → List Item → EmitState → EmitResult
  | _, [], st => .ok (st, [])
  | 0, _ :: _, _ => .error .outOfFuel
  | fuel' + 1, (segments, event) :: rest, st =>
    match callMutationListeners reg fuel' .dispatch event.type segments event st with
    | .error err => .error err
    | .ok (st1, tr1) =>
      match callMutationListeners reg fuel' .dispatch "all" segments event st1 with
      | .error err => .error err
      | .ok (st2, tr2) =>
        match drainPass reg fuel' rest st2 with
        | .error err => .error err
        | .ok (st3, tr3) => .ok (st3, tr1 ++ tr2 ++ tr3)

end

/-- The queue as a list: `null` behaves as the empty queue. -/
def listQueue (q : Option (List Item)) : List Item := q.getD []

/-- The pending queue of `st'` extends the pending queue of `st`: while an
emission is in flight, nested emissions only append to the queue. -/
def QueueExtends (st st' : EmitState) : Prop :=
  ∃ items, listQueue st'.mutationEventQueue = listQueue st.mutationEventQueue ++ items

/-- Whether a trace entry is a queued/ordered dispatch invocation (as opposed
to a pre-queue immediate invocation). -/
def isDispatchEntry (x : Entry) : Bool :=
  match x.phase with
  | .dispatch => true
  | .immediate => false

/-- The expected top-level trace entries of one `_callMutationListeners` call:
one entry per listener, in lookup order, with consecutive indices starting at
`start`. -/
def phaseEntries (ph : Phase) (dtype : String) (s : Segments) (e : MEvent)
    (start len : Nat) : List Entry :=
  (List.range' start len).map fun j => Entry.mk ph dtype s e j

/-- The dispatch-phase entries contributed by one `_callMutationListeners`
call: all of them for a `.dispatch` call site, none for an `.immediate` one. -/
def dispatchEntriesOf (ph : Phase) (dtype : String) (s : Segments) (e : MEvent)
    (start len : Nat) : List Entry :=
  match ph with
  | .dispatch => phaseEntries .dispatch dtype s e start len
  | .immediate => []

/-- The dispatch entries of delivering one queued event: its own-type
listeners then its `'all'`-type listeners. -/
def eventDispatchEntries (reg : Registry) (it : Item) : List Entry :=
  phaseEntries .dispatch it.2.type it.1 it.2 0 (reg it.2.type it.1).length ++
    phaseEntries .dispatch "all" it.1 it.2 0 (reg "all" it.1).length

/-- The dispatch entries of one full drain pass over a queue snapshot. -/
def batchEntries (reg : Registry) (batch : List Item) : List Entry :=
  batch.flatMap (eventDispatchEntries reg)

/-- `BatchChain reg fuel q batches` says that, starting from pending queue
`q`, the drain loop processes exactly the batches `batches`: each batch is
the entire queue at the start of its pass, and the next batch is precisely
what dispatching the current batch enqueued (the state at the start of a
pass is always `⟨true, none⟩`, the queue having just been taken). -/
inductive BatchChain (reg : Registry) : Nat → List Item → List (List Item) → Prop where
  | nil (fuel : Nat) : BatchChain reg fuel [] []
  | cons (fuel : Nat) (q : List Item) (st1 : EmitState) (tr : List Entry)
      (rest : List (List Item)) :
      drainPass reg fuel q ⟨true, none⟩ = .ok (st1, tr) →
      BatchChain reg fuel (listQueue st1.mutationEventQueue) rest →
      BatchChain reg (fuel + 1) q (q :: rest)

/-! ## Error isolation: `wrapCallback` (`events.js` lines 56-66)

`Model.prototype.wrapCallback` wraps a user-supplied asynchronous completion
callback in a `try`/`catch` that converts a thrown exception into an `error`
event on the root scope via `Model.prototype._emitError` (lines 68-85).  We
model the root's ordinary event channel by the list of `error` events emitted
on it; that the wrapped function's result type carries no exception is the
formal counterpart of "the exception does not propagate". -/

/-- The root model, reduced to its `error` event channel. -/
structure RootState where
  errorEvents : List String
deriving DecidableEq, Repr

/-- `Model.prototype._emitError`, reduced to the emission itself: the message
construction of lines 69-84 only reformats the message. -/
def emitError (root : RootState) (msg : String) : RootState :=
  { root with errorEvents := root.errorEvents ++ [msg] }

/-- `Model.prototype.wrapCallback` for a supplied callback `cb`: invoking the
wrapped callback runs `cb` and, if it throws, catches the exception and
emits an `error` event on the root instead of re-throwing.  The result type
`RootState × Option β` has no error component: no exception escapes. -/
def wrapCallback {α β : Type} (cb : α → Except String β) :
    α → RootState → RootState × Option β :=
  fun a root =>
    match cb a with
    | .ok b => (root, some b)
    | .error msg => (emitError root msg, none)

/-! ## Passed-context scopes (`events.js` lines 204-226)

`Model.prototype.pass` derives a child scope whose `_pass` is
`Object.assign(new Passed(), a, b)`; assignment is by key, later sources
winning.  A context object is modelled extensionally as a partial map from
keys to values. -/

/-- A passed-context bag, as the partial map its keys describe. -/
abbrev PassedCtx := String → Option String

/-- `Object.assign(new Passed(), first, second)`: keys of `second` override
keys of `first`. -/
def objectAssign (first second : PassedCtx) : PassedCtx :=
  fun k =>
    match second k with
    | some v => some v
    | none => first k

/-- A model scope, reduced to the `_pass` field that `pass` manipulates. -/
structure Scope where
  _pass : PassedCtx

/-- `Model.prototype.pass` (the `Object.assign` branch; the `mergeInto`
fallback for pre-`Object.assign` engines performs the same merges): create a
child scope whose `_pass` merges the parent context with the given object —
the object's keys win when `invert` is false, the inherited parent keys win
when `invert` is true.  The parent scope is not modified. -/
def pass (m : Scope) (object : PassedCtx) (invert : Bool) : Scope :=
  { _pass :=
      if invert then objectAssign object m._pass
      else objectAssign m._pass object }

/-! ## Listener-pattern registration (`events.js` lines 276-427, 530-541)

`_addMutationListener` builds a `MutationListener` through
`getMutationListener`, which validates the pattern inside
`createMutationListener` (the legacy adapter `createMutationListenerLegacy`
delegates to the same function, so validation is identical on both paths),
and only then inserts it into the per-type tree.  We model the tree as the
list of successfully registered listeners; a registration that throws never
reaches it. -/

/-- A registered mutation listener: its pattern segments as stored in the
tree, and the capture plan computed at registration (`captureIndicies` for
`*` segments, `remainingIndex` for a trailing `**`). -/
structure MListener where
  patternSegments : List String
  captureIndicies : Option (List Nat)
  remainingIndex : Option Nat
deriving DecidableEq, Repr

/-- JavaScript's `pattern.split('.')` over the characters of the pattern:
splitting an empty string yields `[""]`, and separators delimit possibly
empty segments. -/
def splitDots : List Char → List String
  | [] => [""]
  | c :: rest =>
    let r := splitDots rest
    if c = '.' then "" :: r
    else
      match r with
      | s :: tail => (String.singleton c ++ s) :: tail
      | [] => [String.singleton c]

/-- `pattern.split('.')`. -/
def splitPattern (pattern : String) : List String := splitDots pattern.data

/-- `normalizePattern` (`events.js` lines 533-541): a pattern ending in `**`
whose preceding character exists and is not `.` is rewritten to end in
`.**`; `charAt` out of range yields the empty string, which is falsy, so
patterns shorter than three characters are returned unchanged. -/
def normalizePattern (pattern : String) : String :=
  match pattern.data.reverse with
  | c1 :: c2 :: c3 :: _ =>
    if c1 = '*' ∧ c2 = '*' ∧ c3 ≠ '.' then
      String.mk (pattern.data.take (pattern.data.length - 2)) ++ ".**"
    else pattern
  | _ => pattern

/-- The validation/capture loop of `createMutationListener` (lines 386-401):
walk the segments with their global index, collecting `*` capture indices
and the index of a trailing `**`; a `**` that is not the final segment
throws. -/
def scanSegments :
    List String → Nat → Nat → Option (List Nat) → Option Nat →
      Except String (Option (List Nat) × Option Nat)
  | [], _, _, captureIndicies, remainingIndex => .ok (captureIndicies, remainingIndex)
  | seg :: rest, i, len, captureIndicies, remainingIndex =>
    if seg = "*" then
      scanSegments rest (i + 1) len (some ((captureIndicies.getD []) ++ [i])) remainingIndex
    else if seg = "**" then
      if i ≠ len - 1 then .error "Path pattern may contain `**` at end only"
      else scanSegments rest (i + 1) len captureIndicies (some i)
    else
      scanSegments rest (i + 1) len captureIndicies remainingIndex

/-- `createMutationListener` (`events.js` lines 377-414), reduced to the data
it validates and stores; the callback closures built from the capture plan
are not modelled.  A bare `**` pattern is the raw-emission listener; any
other pattern is scanned, throwing on a non-final `**`. -/
def createMutationListener (pattern : String) : Except String MListener :=
  let patternSegments := splitPattern pattern
  if patternSegments.length = 1 ∧ patternSegments.headD "" = "**" then
    .ok ⟨patternSegments, none, none⟩
  else
    match scanSegments patternSegments 0 patternSegments.length none none with
    | .error msg => .error msg
    | .ok (captureIndicies, remainingIndex) =>
      .ok ⟨patternSegments, captureIndicies, remainingIndex⟩

/-- `getMutationListener` (`events.js` lines 313-353), taking the already
resolved path pattern (`model.path(subpath)` lives outside the verified
sources): a `null` or empty pattern is falsy, so the listener listens to raw
event emission with pattern `['**']` (line 345-348); otherwise the pattern
is normalized and validated.  Both the `useEventObjects` and the legacy
variant validate through `createMutationListener`. -/
def getMutationListener (pattern : Option String) : Except String MListener :=
  match pattern with
  | none => .ok ⟨["**"], none, none⟩
  | some p =>
    if p = "" then .ok ⟨["**"], none, none⟩
    else createMutationListener (normalizePattern p)

/-- `Model.prototype._addMutationListener` (lines 276-300), with the
per-type tree modelled as the ordered list of its registered listeners: the
listener is built (which may throw) and only then appended to the tree. -/
def addMutationListener (tree : List MListener) (pattern : Option String) :
    Except String (List MListener × MListener) :=
  match getMutationListener pattern with
  | .error msg => .error msg
  | .ok listener => .ok (tree ++ [listener], listener)

/-! ## Subscription lifecycle (`subscriptions.ts`)

The document store, query registry, and the two reference counters of the
root model, as consumed by `unfetchDoc` / `unsubscribeDoc` /
`_maybeUnloadDoc` / `_hasDocReferences`.  The external ShareDB handle is
modelled by the flags those methods read (`subscribed`, `hasPending()`), and
time by returning the armed delay instead of sleeping. -/

/-- The external document-synchronization handle, reduced to the flags the
lifecycle code reads. -/
structure ShareDoc where
  subscribed : Bool
  pendingOps : Bool
deriving DecidableEq, Repr

/-- `shareDoc.hasPending()`. -/
def ShareDoc.hasPending (sd : ShareDoc) : Bool := sd.pendingOps

/-- A local document: its current value (`doc.get()`) and its optional
external sync handle. -/
structure Doc (α : Type) where
  value : Option α
  shareDoc : Option ShareDoc

/-- The fields of a query that `_hasDocReferences` consults: whether the
query is actively fetched/subscribed, and its membership map from document
id to inclusion count. -/
structure QueryInfo where
  fetchCount : Nat
  subscribeCount : Nat
  idMap : String → Nat

/-- Modelled from the spec: `CollectionCounter` (`src/Model/CollectionCounter`
is not among the sources under verification).  A two-level counting map,
collection name → document id → count, with absent entries behaving as 0.
Represented extensionally as the counting function. -/
abbrev CollectionCounter := String → String → Nat

/-- Modelled from the spec: `CollectionCounter.prototype.decrement` — floor
at 0; decrementing an absent or zero entry is a no-op returning 0; otherwise
the entry is decremented and the new count returned. -/
def decrementCounter (counter : CollectionCounter) (c id : String) :
    CollectionCounter × Nat :=
  let current := counter c id
  if current = 0 then (counter, 0)
  else
    let newCount := current - 1
    (fun c' id' => if c' = c ∧ id' = id then newCount else counter c' id', newCount)

/-- The root-model state consumed by the subscription lifecycle:
`root._fetchedDocs`, `root._subscribedDocs`, the local document collections,
and `root._queries.collectionMap` (per collection, the hash-indexed query
map, as a list). -/
structure SubState (α : Type) where
  fetchedDocs : CollectionCounter
  subscribedDocs : CollectionCounter
  docs : String → String → Option (Doc α)
  queries : String → List QueryInfo

/-- The query loop of `_hasDocReferences` (`subscriptions.ts` lines
317-324): skip queries with neither a subscribe count nor a fetch count;
return true at the first query whose `idMap` holds the id with a positive
count. -/
def queriesHaveReference (qs : List QueryInfo) (id : String) : Bool :=
  match qs with
  | [] => false
  | q :: rest =>
    if q.subscribeCount = 0 ∧ q.fetchCount = 0 then queriesHaveReference rest id
    else if 0 < q.idMap id then true
    else queriesHaveReference rest id

/-- `Model.prototype._hasDocReferences` (`subscriptions.ts` lines 314-333):
a live query lists the id, or a direct fetch or subscribe count is
positive. -/
def hasDocReferences (st : SubState α) (c id : String) : Bool :=
  if queriesHaveReference (st.queries c) id then true
  else if st.fetchedDocs c id ≠ 0 ∨ st.subscribedDocs c id ≠ 0 then true
  else false

/-- The `UnloadEvent` mutation event (`events.js` lines 462-479): both
`previous` and `previousDocument` carry the unloaded value, plus the passed
context. -/
structure UnloadEvent (α : Type) where
  previous : Option α
  previousDocument : Option α
  passed : PassedCtx

/-- What one `_maybeUnloadDoc` call did. -/
inductive MaybeUnloadOutcome (α : Type) where
  | noDoc
  | referenced
  | deferredWhenNothingPending
  | evicted (segments : List String) (event : UnloadEvent α) (destroyedShareDoc : Bool)

/-- Removal of a document from `root.collections[collectionName]`. -/
def removeFromCollection (docs : String → String → Option (Doc α)) (c id : String) :
    String → String → Option (Doc α) :=
  fun c' id' => if c' = c ∧ id' = id then none else docs c' id'

/-- `Model.prototype._maybeUnloadDoc` (`subscriptions.ts` lines 281-312):
nothing to do without a local doc; keep it while referenced; defer through
`shareDoc.whenNothingPending` while the handle has pending operations;
otherwise snapshot `doc.get()`, remove the doc from the local collection,
destroy the share handle when present, and emit an `UnloadEvent` carrying
the snapshot at path `[collectionName, id]` (the outcome records the
emission handed to `_emitMutation`). -/
def maybeUnloadDoc (st : SubState α) (p : PassedCtx) (c id : String) :
    SubState α × MaybeUnloadOutcome α :=
  match st.docs c id with
  | none => (st, .noDoc)
  | some doc =>
    if hasDocReferences st c id then (st, .referenced)
    else if (match doc.shareDoc with | some sd => sd.hasPending | none => false) then
      (st, .deferredWhenNothingPending)
    else
      let previous := doc.value
      ({ st with docs := removeFromCollection st.docs c id },
       .evicted [c, id] ⟨previous, previous, p⟩ doc.shareDoc.isSome)

/-- A completion-callback invocation: the error argument and the
remaining-count argument actually passed (`cb()` passes neither). -/
structure CallbackCall where
  err : Option String
  remaining : Option Nat
deriving DecidableEq, Repr

/-- The externally observable step an `unfetchDoc`/`unsubscribeDoc` call
performs: return the callback invocation straight away, arm the unload-delay
timer, or run the decrement-and-maybe-unload body synchronously. -/
inductive UnDocAction (α : Type) where
  | earlyCallback (call : CallbackCall)
  | timerArmed (delay : Nat)
  | finished (call : CallbackCall) (unload : Option (MaybeUnloadOutcome α))

/-- `finishUnfetchDoc` (`subscriptions.ts` lines 233-238): decrement the
fetched counter; with a positive remaining count report it and stop,
otherwise attempt eviction and report 0. -/
def finishUnfetchDoc (st : SubState α) (p : PassedCtx) (c id : String) :
    SubState α × CallbackCall × Option (MaybeUnloadOutcome α) :=
  let r := decrementCounter st.fetchedDocs c id
  let st1 := { st with fetchedDocs := r.1 }
  if r.2 ≠ 0 then (st1, ⟨none, some r.2⟩, none)
  else
    let u := maybeUnloadDoc st1 p c id
    (u.1, ⟨none, some 0⟩, some u.2)

/-- `Model.prototype.unfetchDoc` (`subscriptions.ts` lines 220-240).  The
`this._context.unfetchDoc` bookkeeping concerns the contexts module, outside
the verified sources, and is not modelled.  With a zero fetched count the
callback is invoked with no arguments and nothing else happens; with a
truthy `root.unloadDelay` the body is deferred by that delay; otherwise it
runs synchronously. -/
def unfetchDoc (st : SubState α) (p : PassedCtx) (unloadDelay : Nat) (c id : String) :
    SubState α × UnDocAction α :=
  if st.fetchedDocs c id = 0 then (st, .earlyCallback ⟨none, none⟩)
  else if unloadDelay ≠ 0 then (st, .timerArmed unloadDelay)
  else
    let r := finishUnfetchDoc st p c id
    (r.1, .finished r.2.1 r.2.2)

/-- `unsubscribeDocCallback` (`subscriptions.ts` lines 271-275): attempt
eviction, then report the error or a remaining count of 0. -/
def unsubscribeDocCallback (st : SubState α) (p : PassedCtx) (c id : String)
    (err : Option String) : SubState α × CallbackCall × Option (MaybeUnloadOutcome α) :=
  let u := maybeUnloadDoc st p c id
  match err with
  | some msg => (u.1, ⟨some msg, none⟩, some u.2)
  | none => (u.1, ⟨none, some 0⟩, some u.2)

/-- `finishUnsubscribeDoc` (`subscriptions.ts` lines 255-270): decrement the
subscribed counter; with a positive remaining count report it and stop; at
zero, in fetch-only mode or without a share handle go straight to the
callback, otherwise request `shareDoc.unsubscribe` from the external handle
(whose completion result is the `shareUnsubscribeResult` argument) and
continue in the callback. -/
def finishUnsubscribeDoc (st : SubState α) (p : PassedCtx) (fetchOnly : Bool)
    (shareUnsubscribeResult : Option String) (c id : String) :
    SubState α × CallbackCall × Option (MaybeUnloadOutcome α) :=
  let r := decrementCounter st.subscribedDocs c id
  let st1 := { st with subscribedDocs := r.1 }
  if r.2 ≠ 0 then (st1, ⟨none, some r.2⟩, none)
  else if fetchOnly then unsubscribeDocCallback st1 p c id none
  else
    match st1.docs c id with
    | none => unsubscribeDocCallback st1 p c id none
    | some doc =>
      match doc.shareDoc with
      | none => unsubscribeDocCallback st1 p c id none
      | some _ => unsubscribeDocCallback st1 p c id shareUnsubscribeResult

/-- `Model.prototype.unsubscribeDoc` (`subscriptions.ts` lines 242-277),
mirror of `unfetchDoc` over the subscribed counter. -/
def unsubscribeDoc (st : SubState α) (p : PassedCtx) (unloadDelay : Nat)
    (fetchOnly : Bool) (shareUnsubscribeResult : Option String) (c id : String) :
    SubState α × UnDocAction α :=
  if st.subscribedDocs c id = 0 then (st, .earlyCallback ⟨none, none⟩)
  else if unloadDelay ≠ 0 then (st, .timerArmed unloadDelay)
  else
    let r := finishUnsubscribeDoc st p fetchOnly shareUnsubscribeResult c id
    (r.1, .finished r.2.1 r.2.2)

/-- The `unloadDelay` initialization (`subscriptions.ts` line 108):
`options.unloadDelay || (util.isServer) ? 0 : 1000`.  JavaScript parses this
as `(options.unloadDelay || util.isServer) ? 0 : 1000` — `||` binds tighter
than `?:` — so a truthy configured delay selects `0`. -/
def initUnloadDelay (optionsUnloadDelay : Option Nat) (isServer : Bool) : Nat :=
  if ((match optionsUnloadDelay with | some n => n != 0 | none => false) || isServer) then 0
  else 1000

/-- Modelled from the spec: the initialization the claim describes — the
caller-configured `unloadDelay` option when one is given, and otherwise 0 on
a server-side execution context and the positive default 1000 on a client. -/
def intendedUnloadDelay (optionsUnloadDelay : Option Nat) (isServer : Bool) : Nat :=
  match optionsUnloadDelay with
  | some n => n
  | none => if isServer then 0 else 1000

/-! ## Concrete fixtures used by the witnesses and concrete claim parts -/

/-- A registry with no listeners at all. -/
def regEmpty : Registry := fun _ _ => []

/-- Chain events: three `change` events used by the bounded re-trigger
scenario. -/
def chainEv1 : MEvent := ⟨"change", 1⟩

/-- Second chain event. -/
def chainEv2 : MEvent := ⟨"change", 2⟩

/-- Third chain event. -/
def chainEv3 : MEvent := ⟨"change", 3⟩

/-- A registry realizing a bounded chain of re-triggers: the listener at
`a` emits at `b`, the listener at `b` emits at `c`, the listener at `c`
does nothing. -/
def chainReg : Registry := fun ty s =>
  if ty = "change" ∧ s = ["a"] then [[Action.emit ["b"] chainEv2]]
  else if ty = "change" ∧ s = ["b"] then [[Action.emit ["c"] chainEv3]]
  else if ty = "change" ∧ s = ["c"] then [[]]
  else []

/-- The event of the unbounded self-triggering scenario. -/
def cycleEv : MEvent := ⟨"change", 0⟩

/-- A registry with a single listener that re-emits its own triggering
event at its own path: the unbounded self-trigger. -/
def cycleReg : Registry := fun ty s =>
  if ty = "change" ∧ s = ["a"] then [[Action.emit ["a"] cycleEv]]
  else []

/-- The event used by the C1 witness. -/
def c1Ev : MEvent := ⟨"change", 0⟩

/-- The event used by the C5 witness. -/
def c5Ev : MEvent := ⟨"change", 7⟩

/-- A registry with a single `changeImmediate` listener at `a` and nothing
else, used by the C5 witness. -/
def c5Reg : Registry := fun ty s =>
  if ty = "changeImmediate" ∧ s = ["a"] then [[]] else []

/-- The event used by the C6 witness. -/
def c6Ev : MEvent := ⟨"change", 9⟩

/-- A registry whose only listener, on `change` at `a`, throws. -/
def c6Reg : Registry := fun ty s =>
  if ty = "change" ∧ s = ["a"] then [[Action.throwErr "boom"]] else []

/-- Parent scope of the C7 witness: context `{from: "x"}`. -/
def c7Parent : Scope :=
  ⟨fun k => if k = "from" then some "x" else none⟩

/-- Object passed with `invert = true` in the C7 witness: `{from: "z", to: "y"}`. -/
def c7Object : PassedCtx :=
  fun k => if k = "from" then some "z" else if k = "to" then some "y" else none

/-- A model state for the C4 witness: no direct references, one live query
whose idMap holds the id, and a resident document. -/
def c4St : SubState Nat :=
  { fetchedDocs := fun _ _ => 0
    subscribedDocs := fun _ _ => 0
    docs := fun c id =>
      if c = "posts" ∧ id = "1" then some ⟨some 42, some ⟨true, false⟩⟩ else none
    queries := fun c =>
      if c = "posts" then
        [⟨1, 0, fun id => if id = "1" then 1 else 0⟩]
      else [] }

/-- The empty passed context used by subscription witnesses. -/
def pNone : PassedCtx := fun _ => none

/-- A model state for the C8 witness: a resident unreferenced document with
an idle share handle. -/
def c8St : SubState Nat :=
  { fetchedDocs := fun _ _ => 0
    subscribedDocs := fun _ _ => 0
    docs := fun c id =>
      if c = "posts" ∧ id = "1" then some ⟨some 42, some ⟨true, false⟩⟩ else none
    queries := fun _ => [] }

/-- A model state for the C10 witness: zero counters everywhere. -/
def c10St : SubState Nat :=
  { fetchedDocs := fun _ _ => 0
    subscribedDocs := fun _ _ => 0
    docs := fun _ _ => none
    queries := fun _ => [] }

/-- A model state for the C3 witness: one active fetch on `posts/1`. -/
def c3St : SubState Nat :=
  { fetchedDocs := fun c id => if c = "posts" ∧ id = "1" then 1 else 0
    subscribedDocs := fun _ _ => 0
    docs := fun _ _ => none
    queries := fun _ => [] }

/-! ## Helper lemmas about queues and traces -/

theorem queueExtends_refl (st : EmitState) : QueueExtends st st :=
  ⟨[], by simp⟩

theorem queueExtends_trans {a b c : EmitState} :
    QueueExtends a b → QueueExtends b c → QueueExtends a c := by
  rintro ⟨i1, h1⟩ ⟨i2, h2⟩
  exact ⟨i1 ++ i2, by rw [h2, h1, List.append_assoc]⟩

theorem listQueue_queuePush (q : Option (List Item)) (s : Segments) (e : MEvent) :
    listQueue (queuePush q s e) = listQueue q ++ [(s, e)] := by
  cases q <;> simp [queuePush, listQueue]

theorem queueExtends_push {a b : EmitState} (s : Segments) (e : MEvent) :
    QueueExtends a b →
    QueueExtends a { b with mutationEventQueue := queuePush b.mutationEventQueue s e } := by
  rintro ⟨i, h⟩
  exact ⟨i ++ [(s, e)], by simp [listQueue_queuePush, h, List.append_assoc]⟩

theorem phaseEntries_zero (ph : Phase) (ty : String) (s : Segments) (e : MEvent) (i : Nat) :
    phaseEntries ph ty s e i 0 = [] := by
  simp [phaseEntries]

theorem phaseEntries_succ (ph : Phase) (ty : String) (s : Segments) (e : MEvent) (i len : Nat) :
    phaseEntries ph ty s e i (len + 1) = Entry.mk ph ty s e i :: phaseEntries ph ty s e (i + 1) len := by
  simp [phaseEntries, List.range'_succ]

theorem dispatchEntriesOf_zero (ph : Phase) (ty : String) (s : Segments) (e : MEvent) (i : Nat) :
    dispatchEntriesOf ph ty s e i 0 = [] := by
  cases ph <;> simp [dispatchEntriesOf, phaseEntries_zero]

/-! ## The in-flight invariant

While `root._emittingMutation` is set, every nested `_emitMutation` call only
runs immediate-phase listeners and appends to the pending queue: it never
dispatches own-type or `'all'`-type listeners, never clears the flag, and
never removes queued events.  This is the heart of the non-interleaving
guarantee. -/

theorem inFlightInv (reg : Registry) : ∀ n : Nat,
    (∀ acts st st' tr, st.emittingMutation = true →
      runActions reg n acts st = .ok (st', tr) →
      st'.emittingMutation = true ∧ QueueExtends st st' ∧ tr.filter isDispatchEntry = []) ∧
    (∀ ph ty s e ls i st st' tr, st.emittingMutation = true →
      runListenerList reg n ph ty s e ls i st = .ok (st', tr) →
      st'.emittingMutation = true ∧ QueueExtends st st' ∧
        tr.filter isDispatchEntry = dispatchEntriesOf ph ty s e i ls.length) ∧
    (∀ ph ty s e st st' tr, st.emittingMutation = true →
      callMutationListeners reg n ph ty s e st = .ok (st', tr) →
      st'.emittingMutation = true ∧ QueueExtends st st' ∧
        tr.filter isDispatchEntry = dispatchEntriesOf ph ty s e 0 (reg ty s).length) ∧
    (∀ sil s e st st' tr, st.emittingMutation = true →
      emitMutation reg sil n s e st = .ok (st', tr) →
      st'.emittingMutation = true ∧ QueueExtends st st' ∧ tr.filter isDispatchEntry = []) := by
  intro n
  induction n with
  | zero =>
    refine ⟨?_, ?_, ?_, ?_⟩
    · intro acts st st' tr hem h
      match acts with
      | [] =>
        simp only [runActions, Except.ok.injEq, Prod.mk.injEq] at h
        obtain ⟨rfl, rfl⟩ := h
        exact ⟨hem, queueExtends_refl st, rfl⟩
      | .throwErr msg :: rest =>
        simp only [runActions] at h
        exact Except.noConfusion h
      | .emit s1 e1 :: rest =>
        simp only [runActions] at h
        exact Except.noConfusion h
    · intro ph ty s e ls i st st' tr hem h
      match ls with
      | [] =>
        simp only [runListenerList, Except.ok.injEq, Prod.mk.injEq] at h
        obtain ⟨rfl, rfl⟩ := h
        exact ⟨hem, queueExtends_refl st, by simp [dispatchEntriesOf_zero]⟩
      | _ :: _ =>
        simp only [runListenerList] at h
        exact Except.noConfusion h
    · intro ph ty s e st st' tr hem h
      simp only [callMutationListeners] at h
      exact Except.noConfusion h
    · intro sil s e st st' tr hem h
      match sil with
      | true =>
        simp only [emitMutation, Except.ok.injEq, Prod.mk.injEq] at h
        obtain ⟨rfl, rfl⟩ := h
        exact ⟨hem, queueExtends_refl st, rfl⟩
      | false =>
        simp only [emitMutation] at h
        exact Except.noConfusion h
  | succ n ih =>
    obtain ⟨ihAct, ihLL, ihCL, ihEm⟩ := ih
    have hAct : ∀ acts st st' tr, st.emittingMutation = true →
        runActions reg (n + 1) acts st = .ok (st', tr) →
        st'.emittingMutation = true ∧ QueueExtends st st' ∧
          tr.filter isDispatchEntry = [] := by
      intro acts st st' tr hem h
      match acts with
      | [] =>
        simp only [runActions, Except.ok.injEq, Prod.mk.injEq] at h
        obtain ⟨rfl, rfl⟩ := h
        exact ⟨hem, queueExtends_refl st, rfl⟩
      | .throwErr msg :: rest =>
        simp only [runActions] at h
        exact Except.noConfusion h
      | .emit s1 e1 :: rest =>
        simp only [runActions] at h
        split at h
        · exact Except.noConfusion h
        next st1 tr1 h1 =>
          split at h
          · exact Except.noConfusion h
          next st2 tr2 h2 =>
            simp only [Except.ok.injEq, Prod.mk.injEq] at h
            obtain ⟨rfl, rfl⟩ := h
            obtain ⟨hem1, hq1, hf1⟩ := ihEm false s1 e1 st st1 tr1 hem h1
            obtain ⟨hem2, hq2, hf2⟩ := ihAct rest st1 st2 tr2 hem1 h2
            exact ⟨hem2, queueExtends_trans hq1 hq2, by simp [List.filter_append, hf1, hf2]⟩
    have hLL : ∀ ph ty s e ls i st st' tr, st.emittingMutation = true →
        runListenerList reg (n + 1) ph ty s e ls i st = .ok (st', tr) →
        st'.emittingMutation = true ∧ QueueExtends st st' ∧
          tr.filter isDispatchEntry = dispatchEntriesOf ph ty s e i ls.length := by
      intro ph ty s e ls i st st' tr hem h
      match ls with
      | [] =>
        simp only [runListenerList, Except.ok.injEq, Prod.mk.injEq] at h
        obtain ⟨rfl, rfl⟩ := h
        exact ⟨hem, queueExtends_refl st, by simp [dispatchEntriesOf_zero]⟩
      | acts :: rest =>
        simp only [runListenerList] at h
        split at h
        · exact Except.noConfusion h
        next st1 tr1 h1 =>
          split at h
          · exact Except.noConfusion h
          next st2 tr2 h2 =>
            simp only [Except.ok.injEq, Prod.mk.injEq] at h
            obtain ⟨rfl, rfl⟩ := h
            obtain ⟨hem1, hq1, hf1⟩ := ihAct acts st st1 tr1 hem h1
            obtain ⟨hem2, hq2, hf2⟩ := ihLL ph ty s e rest (i + 1) st1 st2 tr2 hem1 h2
            refine ⟨hem2, queueExtends_trans hq1 hq2, ?_⟩
            cases ph with
            | dispatch =>
              simp only [List.filter_append, List.filter_cons, hf1, hf2,
                dispatchEntriesOf, isDispatchEntry, List.length_cons]
              simp [phaseEntries_succ]
            | immediate =>
              simp only [List.filter_append, List.filter_cons, hf1, hf2,
                dispatchEntriesOf, isDispatchEntry]
              simp
    have hCL : ∀ ph ty s e st st' tr, st.emittingMutation = true →
        callMutationListeners reg (n + 1) ph ty s e st = .ok (st', tr) →
        st'.emittingMutation = true ∧ QueueExtends st st' ∧
          tr.filter isDispatchEntry = dispatchEntriesOf ph ty s e 0 (reg ty s).length := by
      intro ph ty s e st st' tr hem h
      simp only [callMutationListeners] at h
      exact ihLL ph ty s e (reg ty s) 0 st st' tr hem h
    have hEm : ∀ sil s e st st' tr, st.emittingMutation = true →
        emitMutation reg sil (n + 1) s e st = .ok (st', tr) →
        st'.emittingMutation = true ∧ QueueExtends st st' ∧
          tr.filter isDispatchEntry = [] := by
      intro sil s e st st' tr hem h
      match sil with
      | true =>
        simp only [emitMutation, Except.ok.injEq, Prod.mk.injEq] at h
        obtain ⟨rfl, rfl⟩ := h
        exact ⟨hem, queueExtends_refl st, rfl⟩
      | false =>
        simp only [emitMutation] at h
        split at h
        · exact Except.noConfusion h
        next st1 tr1 h1 =>
          obtain ⟨hem1, hq1, hf1⟩ := ihCL .immediate e.immediateType s e st st1 tr1 hem h1
          rw [if_pos hem1] at h
          simp only [Except.ok.injEq, Prod.mk.injEq] at h
          obtain ⟨rfl, rfl⟩ := h
          refine ⟨hem1, queueExtends_push s e hq1, ?_⟩
          simpa [dispatchEntriesOf] using hf1
    exact ⟨hAct, hLL, hCL, hEm⟩

/-- One drain pass dispatches exactly the queued events of its snapshot, in
queue order, own-type then `'all'`-type listeners each; the in-flight flag
stays set and the queue only grows by what the dispatched listeners
enqueue. -/
theorem drainPass_inFlight (reg : Registry) :
    ∀ (q : List Item) (n : Nat) (st st' : EmitState) (tr : List Entry),
      st.emittingMutation = true →
      drainPass reg n q st = .ok (st', tr) →
      st'.emittingMutation = true ∧ QueueExtends st st' ∧
        tr.filter isDispatchEntry = batchEntries reg q := by
  intro q
  induction q with
  | nil =>
    intro n st st' tr hem h
    simp only [drainPass, Except.ok.injEq, Prod.mk.injEq] at h
    obtain ⟨rfl, rfl⟩ := h
    exact ⟨hem, queueExtends_refl st, rfl⟩
  | cons it rest ih =>
    intro n st st' tr hem h
    obtain ⟨s, e⟩ := it
    match n with
    | 0 =>
      simp only [drainPass] at h
      exact Except.noConfusion h
    | n + 1 =>
      simp only [drainPass] at h
      split at h
      · exact Except.noConfusion h
      next st1 tr1 h1 =>
        split at h
        · exact Except.noConfusion h
        next st2 tr2 h2 =>
          split at h
          · exact Except.noConfusion h
          next st3 tr3 h3 =>
            simp only [Except.ok.injEq, Prod.mk.injEq] at h
            obtain ⟨rfl, rfl⟩ := h
            obtain ⟨hem1, hq1, hf1⟩ :=
              (inFlightInv reg n).2.2.1 .dispatch e.type s e st st1 tr1 hem h1
            obtain ⟨hem2, hq2, hf2⟩ :=
              (inFlightInv reg n).2.2.1 .dispatch "all" s e st1 st2 tr2 hem1 h2
            obtain ⟨hem3, hq3, hf3⟩ := ih n st2 st3 tr3 hem2 h3
            refine ⟨hem3, queueExtends_trans hq1 (queueExtends_trans hq2 hq3), ?_⟩
            simp only [List.filter_append, hf1, hf2, hf3, batchEntries, List.flatMap_cons,
              dispatchEntriesOf, eventDispatchEntries, List.append_assoc]

/-- The drain loop of `_emitMutation`: on success it has emptied the queue,
kept the in-flight flag, and dispatched a chain of batches — each batch the
entire queue at the start of its pass — whose dispatch entries are its whole
trace's. -/
theorem drainQueue_inFlight (reg : Registry) :
    ∀ (limit n : Nat) (st st' : EmitState) (tr : List Entry),
      st.emittingMutation = true →
      drainQueue reg n limit st = .ok (st', tr) →
      st'.emittingMutation = true ∧ st'.mutationEventQueue = none ∧
        ∃ batches, BatchChain reg n (listQueue st.mutationEventQueue) batches ∧
          tr.filter isDispatchEntry = batches.flatMap (batchEntries reg) := by
  intro limit
  induction limit with
  | zero =>
    intro n st st' tr hem h
    obtain ⟨em, q⟩ := st
    cases q with
    | none =>
      simp only [drainQueue, Except.ok.injEq, Prod.mk.injEq] at h
      obtain ⟨rfl, rfl⟩ := h
      exact ⟨hem, rfl, [], BatchChain.nil n, rfl⟩
    | some queue =>
      match n with
      | 0 => simp only [drainQueue] at h; exact Except.noConfusion h
      | n + 1 => simp only [drainQueue] at h; exact Except.noConfusion h
  | succ limit ih =>
    intro n st st' tr hem h
    obtain ⟨em, q⟩ := st
    simp only at hem
    subst hem
    cases q with
    | none =>
      simp only [drainQueue, Except.ok.injEq, Prod.mk.injEq] at h
      obtain ⟨rfl, rfl⟩ := h
      exact ⟨rfl, rfl, [], BatchChain.nil n, rfl⟩
    | some queue =>
      match n with
      | 0 => simp only [drainQueue] at h; exact Except.noConfusion h
      | n + 1 =>
        simp only [drainQueue] at h
        split at h
        · exact Except.noConfusion h
        next st1 tr1 h1 =>
          split at h
          · exact Except.noConfusion h
          next st2 tr2 h2 =>
            simp only [Except.ok.injEq, Prod.mk.injEq] at h
            obtain ⟨rfl, rfl⟩ := h
            obtain ⟨hem1, _, hf1⟩ := drainPass_inFlight reg queue n ⟨true, none⟩ st1 tr1 rfl h1
            obtain ⟨hem2, hqn2, rest, hchain, hf2⟩ := ih n st1 st2 tr2 hem1 h2
            refine ⟨hem2, hqn2, queue :: rest, ?_, ?_⟩
            · exact BatchChain.cons n queue st1 tr1 rest h1 hchain
            · simp only [List.filter_append, hf1, hf2, List.flatMap_cons]

/-- Dispatch that starts from a quiescent root (no emission in flight, no
pending queue) returns to a quiescent root. -/
theorem notInFlightInv (reg : Registry) : ∀ n : Nat,
    (∀ acts st' tr,
      runActions reg n acts ⟨false, none⟩ = .ok (st', tr) → st' = ⟨false, none⟩) ∧
    (∀ ph ty s e ls i st' tr,
      runListenerList reg n ph ty s e ls i ⟨false, none⟩ = .ok (st', tr) →
        st' = ⟨false, none⟩) ∧
    (∀ ph ty s e st' tr,
      callMutationListeners reg n ph ty s e ⟨false, none⟩ = .ok (st', tr) →
        st' = ⟨false, none⟩) ∧
    (∀ sil s e st' tr,
      emitMutation reg sil n s e ⟨false, none⟩ = .ok (st', tr) → st' = ⟨false, none⟩) := by
  intro n
  induction n with
  | zero =>
    refine ⟨?_, ?_, ?_, ?_⟩
    · intro acts st' tr h
      match acts with
      | [] =>
        simp only [runActions, Except.ok.injEq, Prod.mk.injEq] at h
        exact h.1.symm
      | .throwErr msg :: rest => simp only [runActions] at h; exact Except.noConfusion h
      | .emit s1 e1 :: rest => simp only [runActions] at h; exact Except.noConfusion h
    · intro ph ty s e ls i st' tr h
      match ls with
      | [] =>
        simp only [runListenerList, Except.ok.injEq, Prod.mk.injEq] at h
        exact h.1.symm
      | _ :: _ => simp only [runListenerList] at h; exact Except.noConfusion h
    · intro ph ty s e st' tr h
      simp only [callMutationListeners] at h
      exact Except.noConfusion h
    · intro sil s e st' tr h
      match sil with
      | true =>
        simp only [emitMutation, Except.ok.injEq, Prod.mk.injEq] at h
        exact h.1.symm
      | false => simp only [emitMutation] at h; exact Except.noConfusion h
  | succ n ih =>
    obtain ⟨ihAct, ihLL, ihCL, ihEm⟩ := ih
    have hAct : ∀ acts st' tr,
        runActions reg (n + 1) acts ⟨false, none⟩ = .ok (st', tr) → st' = ⟨false, none⟩ := by
      intro acts st' tr h
      match acts with
      | [] =>
        simp only [runActions, Except.ok.injEq, Prod.mk.injEq] at h
        exact h.1.symm
      | .throwErr msg :: rest => simp only [runActions] at h; exact Except.noConfusion h
      | .emit s1 e1 :: rest =>
        simp only [runActions] at h
        split at h
        · exact Except.noConfusion h
        next st1 tr1 h1 =>
          split at h
          · exact Except.noConfusion h
          next st2 tr2 h2 =>
            simp only [Except.ok.injEq, Prod.mk.injEq] at h
            obtain ⟨rfl, rfl⟩ := h
            have := ihEm false s1 e1 st1 tr1 h1
            subst this
            exact ihAct rest st2 tr2 h2
    have hLL : ∀ ph ty s e ls i st' tr,
        runListenerList reg (n + 1) ph ty s e ls i ⟨false, none⟩ = .ok (st', tr) →
          st' = ⟨false, none⟩ := by
      intro ph ty s e ls i st' tr h
      match ls with
      | [] =>
        simp only [runListenerList, Except.ok.injEq, Prod.mk.injEq] at h
        exact h.1.symm
      | acts :: rest =>
        simp only [runListenerList] at h
        split at h
        · exact Except.noConfusion h
        next st1 tr1 h1 =>
          split at h
          · exact Except.noConfusion h
          next st2 tr2 h2 =>
            simp only [Except.ok.injEq, Prod.mk.injEq] at h
            obtain ⟨rfl, rfl⟩ := h
            have := ihAct acts st1 tr1 h1
            subst this
            exact ihLL ph ty s e rest (i + 1) st2 tr2 h2
    have hCL : ∀ ph ty s e st' tr,
        callMutationListeners reg (n + 1) ph ty s e ⟨false, none⟩ = .ok (st', tr) →
          st' = ⟨false, none⟩ := by
      intro ph ty s e st' tr h
      simp only [callMutationListeners] at h
      exact ihLL ph ty s e (reg ty s) 0 st' tr h
    have hEm : ∀ sil s e st' tr,
        emitMutation reg sil (n + 1) s e ⟨false, none⟩ = .ok (st', tr) →
          st' = ⟨false, none⟩ := by
      intro sil s e st' tr h
      match sil with
      | true =>
        simp only [emitMutation, Except.ok.injEq, Prod.mk.injEq] at h
        exact h.1.symm
      | false =>
        simp only [emitMutation] at h
        split at h
        · exact Except.noConfusion h
        next st1 tr1 h1 =>
          have hst1 := ihCL .immediate e.immediateType s e st1 tr1 h1
          subst hst1
          rw [if_neg (by simp)] at h
          split at h
          · exact Except.noConfusion h
          next st2 tr2 h2 =>
            split at h
            · exact Except.noConfusion h
            next st3 tr3 h3 =>
              split at h
              · exact Except.noConfusion h
              next st4 tr4 h4 =>
                simp only [Except.ok.injEq, Prod.mk.injEq] at h
                obtain ⟨rfl, rfl⟩ := h
                have hem2 :=
                  ((inFlightInv reg n).2.2.1 .dispatch e.type s e ⟨true, none⟩ st2 tr2 rfl h2).1
                have hem3 :=
                  ((inFlightInv reg n).2.2.1 .dispatch "all" s e st2 st3 tr3 hem2 h3).1
                obtain ⟨hem4, hq4, _⟩ := drainQueue_inFlight reg 1000 n st3 st4 tr4 hem3 h4
                obtain ⟨em4, q4⟩ := st4
                simp only at hem4 hq4
                subst hem4
                subst hq4
                rfl
    exact ⟨hAct, hLL, hCL, hEm⟩

/-- Each listener of the looked-up list is invoked, in order: the expected
per-listener entries form a sublist of the produced trace. -/
theorem runListenerList_sublist (reg : Registry) :
    ∀ (n : Nat) (ph : Phase) (ty : String) (s : Segments) (e : MEvent)
      (ls : List Listener) (i : Nat) (st st' : EmitState) (tr : List Entry),
      runListenerList reg n ph ty s e ls i st = .ok (st', tr) →
      List.Sublist (phaseEntries ph ty s e i ls.length) tr := by
  intro n
  induction n with
  | zero =>
    intro ph ty s e ls i st st' tr h
    match ls with
    | [] => simp [phaseEntries_zero]
    | _ :: _ => simp only [runListenerList] at h; exact Except.noConfusion h
  | succ n ih =>
    intro ph ty s e ls i st st' tr h
    match ls with
    | [] => simp [phaseEntries_zero]
    | acts :: rest =>
      simp only [runListenerList] at h
      split at h
      · exact Except.noConfusion h
      next st1 tr1 h1 =>
        split at h
        · exact Except.noConfusion h
        next st2 tr2 h2 =>
          simp only [Except.ok.injEq, Prod.mk.injEq] at h
          obtain ⟨rfl, rfl⟩ := h
          have hrest := ih ph ty s e rest (i + 1) st1 st2 tr2 h2
          simp only [List.length_cons, phaseEntries_succ, List.cons_append]
          exact List.Sublist.cons₂ _ (hrest.trans (List.sublist_append_right tr1 tr2))

/-- The per-listener entries of a `_callMutationListeners` call form a
sublist of its trace: every listener the tree yields is invoked, in order. -/
theorem callMutationListeners_sublist (reg : Registry) (n : Nat) (ph : Phase)
    (ty : String) (s : Segments) (e : MEvent) (st st' : EmitState) (tr : List Entry)
    (h : callMutationListeners reg n ph ty s e st = .ok (st', tr)) :
    List.Sublist (phaseEntries ph ty s e 0 (reg ty s).length) tr := by
  match n with
  | 0 => simp only [callMutationListeners] at h; exact Except.noConfusion h
  | n + 1 =>
    simp only [callMutationListeners] at h
    exact runListenerList_sublist reg n ph ty s e (reg ty s) 0 st st' tr h

/-- C1.  For every emission started while no other emission is in flight (and
with an empty pending queue, the only state a quiescent root can be in), a
successful `_emitMutation` run decomposes as: the immediate pre-phase, then
the dispatch of the triggering event's own-type listeners — whose
dispatch-phase trace entries are exactly one entry per registered listener,
in order, with nothing else interleaved — then likewise its `'all'`-type
listeners, and only then the drain of the pending queue, which proceeds in
FIFO batches, each batch being the entire queue content at the start of its
pass (`BatchChain`), with the batch dispatch entries in enqueue order;
afterwards the root is quiescent again. -/
theorem claim_C1 (reg : Registry) (n : Nat) (s : Segments) (e : MEvent)
    (st st' : EmitState) (tr : List Entry)
    (hin : st.emittingMutation = false) (hq : st.mutationEventQueue = none)
    (hrun : emitMutation reg false n s e st = .ok (st', tr)) :
    ∃ f trPre trOwn trAll trDrain st2 st3 batches,
      n = f + 1 ∧
      tr = trPre ++ trOwn ++ trAll ++ trDrain ∧
      callMutationListeners reg f .immediate e.immediateType s e ⟨false, none⟩ =
        .ok (⟨false, none⟩, trPre) ∧
      callMutationListeners reg f .dispatch e.type s e ⟨true, none⟩ = .ok (st2, trOwn) ∧
      trOwn.filter isDispatchEntry = phaseEntries .dispatch e.type s e 0 (reg e.type s).length ∧
      callMutationListeners reg f .dispatch "all" s e st2 = .ok (st3, trAll) ∧
      trAll.filter isDispatchEntry = phaseEntries .dispatch "all" s e 0 (reg "all" s).length ∧
      BatchChain reg f (listQueue st3.mutationEventQueue) batches ∧
      trDrain.filter isDispatchEntry = batches.flatMap (batchEntries reg) ∧
      st' = ⟨false, none⟩ := by
  obtain ⟨em, q⟩ := st
  simp only at hin hq
  subst hin
  subst hq
  cases n with
  | zero =>
    simp only [emitMutation] at hrun
    exact Except.noConfusion hrun
  | succ f =>
    simp only [emitMutation] at hrun
    split at hrun
    · exact Except.noConfusion hrun
    next st1 trPre h1 =>
      have hst1 : st1 = ⟨false, none⟩ :=
        (notInFlightInv reg f).2.2.1 .immediate e.immediateType s e st1 trPre h1
      subst hst1
      rw [if_neg (by simp)] at hrun
      split at hrun
      · exact Except.noConfusion hrun
      next st2 trOwn h2 =>
        split at hrun
        · exact Except.noConfusion hrun
        next st3 trAll h3 =>
          split at hrun
          · exact Except.noConfusion hrun
          next st4 trDrain h4 =>
            simp only [Except.ok.injEq, Prod.mk.injEq] at hrun
            obtain ⟨rfl, rfl⟩ := hrun
            obtain ⟨hem2, _, hf2⟩ :=
              (inFlightInv reg f).2.2.1 .dispatch e.type s e ⟨true, none⟩ st2 trOwn rfl h2
            obtain ⟨hem3, _, hf3⟩ :=
              (inFlightInv reg f).2.2.1 .dispatch "all" s e st2 st3 trAll hem2 h3
            obtain ⟨hem4, hq4, batches, hchain, hf4⟩ :=
              drainQueue_inFlight reg 1000 f st3 st4 trDrain hem3 h4
            refine ⟨f, trPre, trOwn, trAll, trDrain, st2, st3, batches,
              rfl, rfl, h1, h2, ?_, h3, ?_, hchain, hf4, ?_⟩
            · simpa [dispatchEntriesOf] using hf2
            · simpa [dispatchEntriesOf] using hf3
            · obtain ⟨em4, q4⟩ := st4
              simp only at hq4
              subst hq4
              rfl

theorem claim_C1_witness :
    (⟨false, none⟩ : EmitState).emittingMutation = false ∧
    (⟨false, none⟩ : EmitState).mutationEventQueue = none ∧
    emitMutation regEmpty false 3 ["a"] c1Ev ⟨false, none⟩ = .ok (⟨false, none⟩, []) ∧
    (∃ f trPre trOwn trAll trDrain st2 st3 batches,
      3 = f + 1 ∧
      ([] : List Entry) = trPre ++ trOwn ++ trAll ++ trDrain ∧
      callMutationListeners regEmpty f .immediate c1Ev.immediateType ["a"] c1Ev ⟨false, none⟩ =
        .ok (⟨false, none⟩, trPre) ∧
      callMutationListeners regEmpty f .dispatch c1Ev.type ["a"] c1Ev ⟨true, none⟩ =
        .ok (st2, trOwn) ∧
      trOwn.filter isDispatchEntry =
        phaseEntries .dispatch c1Ev.type ["a"] c1Ev 0 (regEmpty c1Ev.type ["a"]).length ∧
      callMutationListeners regEmpty f .dispatch "all" ["a"] c1Ev st2 = .ok (st3, trAll) ∧
      trAll.filter isDispatchEntry =
        phaseEntries .dispatch "all" ["a"] c1Ev 0 (regEmpty "all" ["a"]).length ∧
      BatchChain regEmpty f (listQueue st3.mutationEventQueue) batches ∧
      trDrain.filter isDispatchEntry = batches.flatMap (batchEntries regEmpty) ∧
      (⟨false, none⟩ : EmitState) = ⟨false, none⟩) :=
  ⟨rfl, rfl, rfl,
    claim_C1 regEmpty 3 ["a"] c1Ev ⟨false, none⟩ ⟨false, none⟩ [] rfl rfl rfl⟩

/-- C5.  On a non-silent scope, when another emission is already in flight:
the event's immediate-type listeners are still invoked (every one of them,
in order — the sublist conjunct), the `{path, event}` pair is appended at
the end of the pending queue, and the call returns without dispatching any
own-type or `'all'`-type listeners (its trace has no dispatch-phase entry).
That the immediate phase runs unconditionally, in flight or not, is the
shape of `emitMutation` itself: the characterization below equates the whole
in-flight call with its immediate phase plus the enqueue. -/
theorem claim_C5 (reg : Registry) (f : Nat) (s : Segments) (e : MEvent)
    (st st1 : EmitState) (trImm : List Entry)
    (hin : st.emittingMutation = true)
    (hImm : callMutationListeners reg f .immediate e.immediateType s e st = .ok (st1, trImm)) :
    emitMutation reg false (f + 1) s e st =
      .ok ({ st1 with mutationEventQueue := queuePush st1.mutationEventQueue s e }, trImm) ∧
    List.Sublist (phaseEntries .immediate e.immediateType s e 0 (reg e.immediateType s).length)
      trImm ∧
    trImm.filter isDispatchEntry = [] ∧
    listQueue (queuePush st1.mutationEventQueue s e) =
      listQueue st1.mutationEventQueue ++ [(s, e)] := by
  obtain ⟨hem1, _, hf1⟩ :=
    (inFlightInv reg f).2.2.1 .immediate e.immediateType s e st st1 trImm hin hImm
  refine ⟨?_, ?_, ?_, ?_⟩
  · simp only [emitMutation, hImm]
    rw [if_pos hem1]
  · exact callMutationListeners_sublist reg f .immediate e.immediateType s e st st1 trImm hImm
  · simpa [dispatchEntriesOf] using hf1
  · exact listQueue_queuePush st1.mutationEventQueue s e

theorem claim_C5_witness :
    (⟨true, none⟩ : EmitState).emittingMutation = true ∧
    callMutationListeners c5Reg 2 .immediate c5Ev.immediateType ["a"] c5Ev ⟨true, none⟩ =
      .ok (⟨true, none⟩, [⟨.immediate, "changeImmediate", ["a"], c5Ev, 0⟩]) ∧
    (emitMutation c5Reg false (2 + 1) ["a"] c5Ev ⟨true, none⟩ =
      .ok ({ (⟨true, none⟩ : EmitState) with
              mutationEventQueue := queuePush none ["a"] c5Ev },
           [⟨.immediate, "changeImmediate", ["a"], c5Ev, 0⟩]) ∧
     List.Sublist
       (phaseEntries .immediate c5Ev.immediateType ["a"] c5Ev 0
         (c5Reg c5Ev.immediateType ["a"]).length)
       [⟨.immediate, "changeImmediate", ["a"], c5Ev, 0⟩] ∧
     List.filter isDispatchEntry [⟨.immediate, "changeImmediate", ["a"], c5Ev, 0⟩] = [] ∧
     listQueue (queuePush none ["a"] c5Ev) = listQueue none ++ [(["a"], c5Ev)]) :=
  ⟨rfl, rfl,
    claim_C5 c5Reg 2 ["a"] c5Ev ⟨true, none⟩ ⟨true, none⟩
      [⟨.immediate, "changeImmediate", ["a"], c5Ev, 0⟩] rfl rfl⟩

/-- C6.  The asymmetry of exception handling: an exception raised inside a
mutation listener during dispatch is not caught by the emitter — a listener
body that throws makes `runActions` fail immediately, and a failing own-type
dispatch phase makes the whole `_emitMutation` call fail with the very same
error, which thus propagates synchronously to the caller of the triggering
mutation.  An exception raised inside a user callback wrapped by
`wrapCallback` is caught: the wrapped call always returns (its type carries
no exception), converting the failure into an `error` event on the root. -/
theorem claim_C6 :
    (∀ (reg : Registry) (f : Nat) (msg : String) (rest : List Action) (st : EmitState),
      runActions reg f (.throwErr msg :: rest) st = .error (.listenerThrow msg)) ∧
    (∀ (reg : Registry) (f : Nat) (s : Segments) (e : MEvent) (st st1 : EmitState)
      (trPre : List Entry) (err : EmitErr),
      callMutationListeners reg f .immediate e.immediateType s e st = .ok (st1, trPre) →
      st1.emittingMutation = false →
      callMutationListeners reg f .dispatch e.type s e
        { st1 with emittingMutation := true } = .error err →
      emitMutation reg false (f + 1) s e st = .error err) ∧
    (∀ (α β : Type) (cb : α → Except String β) (a : α) (root : RootState) (msg : String),
      cb a = .error msg →
      wrapCallback cb a root =
        ({ root with errorEvents := root.errorEvents ++ [msg] }, none)) ∧
    (∀ (α β : Type) (cb : α → Except String β) (a : α) (root : RootState) (b : β),
      cb a = .ok b → wrapCallback cb a root = (root, some b)) := by
  refine ⟨?_, ?_, ?_, ?_⟩
  · intro reg f msg rest st
    cases f <;> rfl
  · intro reg f s e st st1 trPre err hImm hflag hOwn
    simp only [emitMutation, hImm]
    rw [if_neg (by simp [hflag])]
    simp only [hOwn]
  · intro α β cb a root msg hcb
    simp [wrapCallback, emitError, hcb]
  · intro α β cb a root b hcb
    simp [wrapCallback, hcb]

theorem claim_C6_witness :
    runActions c6Reg 4 [.throwErr "boom"] ⟨true, none⟩ = .error (.listenerThrow "boom") ∧
    (callMutationListeners c6Reg 5 .immediate c6Ev.immediateType ["a"] c6Ev ⟨false, none⟩ =
        .ok (⟨false, none⟩, []) ∧
      (⟨false, none⟩ : EmitState).emittingMutation = false ∧
      callMutationListeners c6Reg 5 .dispatch c6Ev.type ["a"] c6Ev
        { (⟨false, none⟩ : EmitState) with emittingMutation := true } =
        .error (.listenerThrow "boom") ∧
      emitMutation c6Reg false (5 + 1) ["a"] c6Ev ⟨false, none⟩ =
        .error (.listenerThrow "boom")) ∧
    ((fun _ : Unit => (.error "cbfail" : Except String Nat)) () = .error "cbfail" ∧
      wrapCallback (fun _ : Unit => (.error "cbfail" : Except String Nat)) () ⟨["earlier"]⟩ =
        ({ (⟨["earlier"]⟩ : RootState) with errorEvents := ["earlier"] ++ ["cbfail"] }, none)) :=
  ⟨claim_C6.1 c6Reg 4 "boom" [] ⟨true, none⟩,
   ⟨rfl, rfl, rfl,
    claim_C6.2.1 c6Reg 5 ["a"] c6Ev ⟨false, none⟩ ⟨false, none⟩ [] (.listenerThrow "boom")
      rfl rfl rfl⟩,
   ⟨rfl,
    claim_C6.2.2.1 Unit Nat (fun _ => .error "cbfail") () ⟨["earlier"]⟩ "cbfail" rfl⟩⟩

set_option maxRecDepth 100000 in
/-- C2.  The drain loop's hard cap and its bounded behaviour.  First, in
general: whenever a drain pass is due (the queue is non-empty) but the
iteration budget is exhausted, the loop fails with the fatal
`EmitErr.cycle` error carrying the offending queue contents (the thrown
message serializes exactly this queue).  Second, concretely: a listener
that re-emits its own triggering event keeps the queue non-empty forever,
so the emission started on the quiescent root exhausts the budget of 1000
full passes and throws the cycle error.  Third: a bounded chain of three
re-triggered events completes normally, delivering all three events in
enqueue order (one dispatch per event, in order, in the trace) and clearing
the in-flight flag at the end. -/
theorem claim_C2 :
    (∀ (reg : Registry) (f : Nat) (st : EmitState) (q : List Item),
      st.mutationEventQueue = some q →
      drainQueue reg f 0 st = .error (.cycle q)) ∧
    (∀ k : Nat,
      emitMutation cycleReg false (k + 1009) ["a"] cycleEv ⟨false, none⟩ =
        .error (.cycle [(["a"], cycleEv)])) ∧
    emitMutation chainReg false 30 ["a"] chainEv1 ⟨false, none⟩ =
      .ok (⟨false, none⟩,
        [⟨.dispatch, "change", ["a"], chainEv1, 0⟩,
         ⟨.dispatch, "change", ["b"], chainEv2, 0⟩,
         ⟨.dispatch, "change", ["c"], chainEv3, 0⟩]) := by
  refine ⟨?_, ?_, ?_⟩
  · intro reg f st q h
    obtain ⟨em, qq⟩ := st
    simp only at h
    subst h
    cases f <;> simp only [drainQueue]
  · intro k
    rfl
  · rfl

theorem claim_C2_witness :
    (⟨true, some [(["a"], cycleEv)]⟩ : EmitState).mutationEventQueue =
      some [(["a"], cycleEv)] ∧
    drainQueue regEmpty 5 0 ⟨true, some [(["a"], cycleEv)]⟩ =
      .error (.cycle [(["a"], cycleEv)]) :=
  ⟨rfl, claim_C2.1 regEmpty 5 ⟨true, some [(["a"], cycleEv)]⟩ [(["a"], cycleEv)] rfl⟩

/-- C7.  `pass(object, invert)` derives a new scope whose context merges the
parent context with the object: with `invert` false the object's keys
override inherited parent keys, with `invert` true the inherited parent keys
override the object's.  The parent is a value here, so its own `_pass` is
untouched by construction — `pass` builds a fresh `Scope` and never writes
through `m`. -/
theorem claim_C7 (m : Scope) (object : PassedCtx) (k : String) :
    (∀ v, object k = some v → (pass m object false)._pass k = some v) ∧
    (object k = none → (pass m object false)._pass k = m._pass k) ∧
    (∀ v, m._pass k = some v → (pass m object true)._pass k = some v) ∧
    (m._pass k = none → (pass m object true)._pass k = object k) := by
  refine ⟨?_, ?_, ?_, ?_⟩
  · intro v h
    simp [pass, objectAssign, h]
  · intro h
    simp [pass, objectAssign, h]
  · intro v h
    simp [pass, objectAssign, h]
  · intro h
    simp [pass, objectAssign, h]

theorem claim_C7_witness :
    (c7Object "from" = some "z" ∧ (pass c7Parent c7Object false)._pass "from" = some "z") ∧
    (c7Parent._pass "from" = some "x" ∧ (pass c7Parent c7Object true)._pass "from" = some "x") ∧
    (c7Parent._pass "to" = none ∧ (pass c7Parent c7Object true)._pass "to" = c7Object "to") :=
  ⟨⟨rfl, (claim_C7 c7Parent c7Object "from").1 "z" rfl⟩,
   ⟨rfl, (claim_C7 c7Parent c7Object "from").2.2.1 "x" rfl⟩,
   ⟨rfl, (claim_C7 c7Parent c7Object "to").2.2.2 rfl⟩⟩

/-- The validation loop throws exactly when a `**` segment occurs before the
last position (relative to the full pattern length carried in `len`). -/
theorem scanSegments_error :
    ∀ (segs : List String) (i len : Nat) (ci : Option (List Nat)) (ri : Option Nat),
      i + segs.length = len →
      "**" ∈ segs.dropLast →
      scanSegments segs i len ci ri = .error "Path pattern may contain `**` at end only" := by
  intro segs
  induction segs with
  | nil =>
    intro i len ci ri hlen hcon
    simp at hcon
  | cons seg rest ih =>
    intro i len ci ri hlen hcon
    cases rest with
    | nil => simp at hcon
    | cons r2 rest2 =>
      have hne : i ≠ len - 1 := by
        simp only [List.length_cons] at hlen
        omega
      rw [List.dropLast_cons₂] at hcon
      rcases List.mem_cons.mp hcon with hseg | hrest
      · have hseg' : seg = "**" := hseg.symm
        subst hseg'
        simp [scanSegments, hne]
      · by_cases h1 : seg = "*"
        · simp only [scanSegments, if_pos h1]
          exact ih (i + 1) len _ ri (by simp only [List.length_cons] at hlen ⊢; omega) hrest
        · by_cases h2 : seg = "**"
          · simp only [scanSegments, if_neg h1, if_pos h2, if_pos hne]
          · simp only [scanSegments, if_neg h1, if_neg h2]
            exact ih (i + 1) len ci ri (by simp only [List.length_cons] at hlen ⊢; omega) hrest

/-- C9 (amended).  A pattern whose normalized segment list has a `**` before
the final position fails at registration with the validation error, and no
listener is produced, so none reaches the tree; an empty (or absent)
pattern, however, does not fail: `_addMutationListener` registers it as a
raw-emission listener with pattern `['**']`, which is appended to the
tree. -/
theorem claim_C9 :
    (∀ (tree : List MListener) (p : String),
      p ≠ "" →
      "**" ∈ (splitPattern (normalizePattern p)).dropLast →
      addMutationListener tree (some p) =
        .error "Path pattern may contain `**` at end only") ∧
    (∀ tree : List MListener,
      addMutationListener tree (some "") =
        .ok (tree ++ [⟨["**"], none, none⟩], ⟨["**"], none, none⟩)) ∧
    (∀ tree : List MListener,
      addMutationListener tree none =
        .ok (tree ++ [⟨["**"], none, none⟩], ⟨["**"], none, none⟩)) := by
  refine ⟨?_, ?_, ?_⟩
  · intro tree p hp hcon
    have hlen : (splitPattern (normalizePattern p)).length ≠ 1 := by
      intro hl
      have hnil : (splitPattern (normalizePattern p)).dropLast = [] := by
        have h0 : (splitPattern (normalizePattern p)).dropLast.length = 0 := by
          rw [List.length_dropLast, hl]
        exact List.eq_nil_of_length_eq_zero h0
      rw [hnil] at hcon
      simp at hcon
    have hcond : ¬((splitPattern (normalizePattern p)).length = 1 ∧
        (splitPattern (normalizePattern p)).headD "" = "**") := fun hand => hlen hand.1
    have hscan := scanSegments_error (splitPattern (normalizePattern p)) 0
      (splitPattern (normalizePattern p)).length none none (by omega) hcon
    simp only [addMutationListener, getMutationListener, if_neg hp, createMutationListener,
      if_neg hcond, hscan]
  · intro tree
    rfl
  · intro tree
    rfl

theorem claim_C9_counterexample :
    addMutationListener [] (some "") =
      .ok ([⟨["**"], none, none⟩], ⟨["**"], none, none⟩) := rfl

theorem claim_C9_witness :
    ("a.**.b" ≠ "" ∧
      "**" ∈ (splitPattern (normalizePattern "a.**.b")).dropLast ∧
      addMutationListener [] (some "a.**.b") =
        .error "Path pattern may contain `**` at end only") ∧
    addMutationListener [⟨["x"], none, none⟩] (some "") =
      .ok ([⟨["x"], none, none⟩, ⟨["**"], none, none⟩], ⟨["**"], none, none⟩) :=
  ⟨⟨by decide, by decide, claim_C9.1 [] "a.**.b" (by decide) (by decide)⟩,
   claim_C9.2.1 [⟨["x"], none, none⟩]⟩

/-- The query loop returns true exactly when some actively loaded query
lists the id with a positive membership count. -/
theorem queriesHaveReference_iff (qs : List QueryInfo) (id : String) :
    queriesHaveReference qs id = true ↔
      ∃ q ∈ qs, (0 < q.fetchCount ∨ 0 < q.subscribeCount) ∧ 0 < q.idMap id := by
  induction qs with
  | nil => simp [queriesHaveReference]
  | cons q rest ih =>
    by_cases hskip : q.subscribeCount = 0 ∧ q.fetchCount = 0
    · have hq : ¬((0 < q.fetchCount ∨ 0 < q.subscribeCount) ∧ 0 < q.idMap id) := by
        rintro ⟨hcnt | hcnt, _⟩ <;> omega
      simp only [queriesHaveReference, if_pos hskip, List.exists_mem_cons_iff]
      rw [ih]
      constructor
      · exact fun h => Or.inr h
      · rintro (h | h)
        · exact absurd h hq
        · exact h
    · by_cases hid : 0 < q.idMap id
      · simp only [queriesHaveReference, if_neg hskip, if_pos hid, List.exists_mem_cons_iff]
        constructor
        · intro _
          exact Or.inl ⟨by omega, hid⟩
        · intro _
          trivial
      · have hq : ¬((0 < q.fetchCount ∨ 0 < q.subscribeCount) ∧ 0 < q.idMap id) := by
          rintro ⟨_, h⟩
          exact hid h
        simp only [queriesHaveReference, if_neg hskip, if_neg hid, List.exists_mem_cons_iff]
        rw [ih]
        constructor
        · exact fun h => Or.inr h
        · rintro (h | h)
          · exact absurd h hq
          · exact h

/-- C4.  `_maybeUnloadDoc` never removes the local document while it is
referenced (the model state is returned unchanged), defers through
`whenNothingPending` — without touching the state — when the share handle
reports pending operations, and `_hasDocReferences` holds exactly when the
direct fetched counter is positive, or the direct subscribed counter is
positive, or some query against the collection with a positive fetch or
subscribe count lists the id with a positive `idMap` entry. -/
theorem claim_C4 (α : Type) (st : SubState α) (p : PassedCtx) (c id : String) :
    (hasDocReferences st c id = true → (maybeUnloadDoc st p c id).1 = st) ∧
    (∀ doc : Doc α, st.docs c id = some doc →
      hasDocReferences st c id = false →
      (match doc.shareDoc with | some sd => sd.hasPending | none => false) = true →
      maybeUnloadDoc st p c id = (st, .deferredWhenNothingPending)) ∧
    (hasDocReferences st c id = true ↔
      0 < st.fetchedDocs c id ∨ 0 < st.subscribedDocs c id ∨
        ∃ q ∈ st.queries c, (0 < q.fetchCount ∨ 0 < q.subscribeCount) ∧ 0 < q.idMap id) := by
  refine ⟨?_, ?_, ?_⟩
  · intro h
    cases hdoc : st.docs c id <;> simp [maybeUnloadDoc, hdoc, h]
  · intro doc hdoc href hpend
    simp [maybeUnloadDoc, hdoc, href, hpend]
  · simp only [hasDocReferences]
    by_cases h1 : queriesHaveReference (st.queries c) id = true
    · simp only [if_pos h1, true_iff]
      exact Or.inr (Or.inr ((queriesHaveReference_iff (st.queries c) id).mp h1))
    · by_cases h2 : st.fetchedDocs c id ≠ 0 ∨ st.subscribedDocs c id ≠ 0
      · simp only [if_neg h1, if_pos h2, true_iff]
        rcases h2 with h2 | h2
        · exact Or.inl (Nat.pos_of_ne_zero h2)
        · exact Or.inr (Or.inl (Nat.pos_of_ne_zero h2))
      · simp only [if_neg h1, if_neg h2]
        constructor
        · intro hfalse
          exact absurd hfalse (by simp)
        · rintro (hpos | hpos | hex)
          · exact absurd (Or.inl (Nat.pos_iff_ne_zero.mp hpos)) h2
          · exact absurd (Or.inr (Nat.pos_iff_ne_zero.mp hpos)) h2
          · exact absurd ((queriesHaveReference_iff (st.queries c) id).mpr hex) h1

theorem claim_C4_witness :
    hasDocReferences c4St "posts" "1" = true ∧
    (maybeUnloadDoc c4St pNone "posts" "1").1 = c4St ∧
    (hasDocReferences c4St "posts" "1" = true ↔
      0 < c4St.fetchedDocs "posts" "1" ∨ 0 < c4St.subscribedDocs "posts" "1" ∨
        ∃ q ∈ c4St.queries "posts",
          (0 < q.fetchCount ∨ 0 < q.subscribeCount) ∧ 0 < q.idMap "1") :=
  ⟨rfl, (claim_C4 Nat c4St pNone "posts" "1").1 rfl,
    (claim_C4 Nat c4St pNone "posts" "1").2.2⟩

/-- C8.  When `_maybeUnloadDoc` actually evicts (resident doc, no references,
no pending operations): the doc is removed from the local collection, the
share handle is destroyed when present, and an `UnloadEvent` is emitted at
`[collectionName, id]` whose `previous` field is the value snapshot taken
from `doc.get()` before the removal. -/
theorem claim_C8 (α : Type) (st : SubState α) (p : PassedCtx) (c id : String) (doc : Doc α)
    (hdoc : st.docs c id = some doc)
    (href : hasDocReferences st c id = false)
    (hpend : (match doc.shareDoc with | some sd => sd.hasPending | none => false) = false) :
    maybeUnloadDoc st p c id =
      ({ st with docs := removeFromCollection st.docs c id },
       .evicted [c, id] ⟨doc.value, doc.value, p⟩ doc.shareDoc.isSome) ∧
    (maybeUnloadDoc st p c id).1.docs c id = none := by
  have hmain : maybeUnloadDoc st p c id =
      ({ st with docs := removeFromCollection st.docs c id },
       .evicted [c, id] ⟨doc.value, doc.value, p⟩ doc.shareDoc.isSome) := by
    simp [maybeUnloadDoc, hdoc, href, hpend]
  refine ⟨hmain, ?_⟩
  rw [hmain]
  simp [removeFromCollection]

theorem claim_C8_witness :
    c8St.docs "posts" "1" = some ⟨some 42, some ⟨true, false⟩⟩ ∧
    hasDocReferences c8St "posts" "1" = false ∧
    (maybeUnloadDoc c8St pNone "posts" "1" =
      ({ c8St with docs := removeFromCollection c8St.docs "posts" "1" },
       .evicted ["posts", "1"] ⟨some 42, some 42, pNone⟩ true) ∧
     (maybeUnloadDoc c8St pNone "posts" "1").1.docs "posts" "1" = none) :=
  ⟨rfl, rfl,
    claim_C8 Nat c8St pNone "posts" "1" ⟨some 42, some ⟨true, false⟩⟩ rfl rfl rfl⟩

/-- C10.  With a fetched count of 0, `unfetchDoc` invokes its callback
immediately with no error and no remaining-count argument and does nothing
else: the state (hence both counters) is unchanged, no timer is armed and
no eviction is attempted, the whole call being the `earlyCallback` step;
likewise `unsubscribeDoc` with a subscribed count of 0. -/
theorem claim_C10 (α : Type) (st : SubState α) (p : PassedCtx) (d : Nat) (fo : Bool)
    (sr : Option String) (c id : String) :
    (st.fetchedDocs c id = 0 →
      unfetchDoc st p d c id = (st, .earlyCallback ⟨none, none⟩)) ∧
    (st.subscribedDocs c id = 0 →
      unsubscribeDoc st p d fo sr c id = (st, .earlyCallback ⟨none, none⟩)) := by
  constructor
  · intro h
    simp [unfetchDoc, h]
  · intro h
    simp [unsubscribeDoc, h]

theorem claim_C10_witness :
    c10St.fetchedDocs "posts" "1" = 0 ∧
    c10St.subscribedDocs "posts" "1" = 0 ∧
    unfetchDoc c10St pNone 1000 "posts" "1" = (c10St, .earlyCallback ⟨none, none⟩) ∧
    unsubscribeDoc c10St pNone 1000 false none "posts" "1" =
      (c10St, .earlyCallback ⟨none, none⟩) :=
  ⟨rfl, rfl,
    (claim_C10 Nat c10St pNone 1000 false none "posts" "1").1 rfl,
    (claim_C10 Nat c10St pNone 1000 false none "posts" "1").2 rfl⟩

/-- C3 (code evaluation).  The delay `unfetchDoc`/`unsubscribeDoc` defer by
is always exactly the model's `root.unloadDelay` (the timer conjuncts), and
with no configured option that field is 0 on a server and 1000 on a client —
but the initialization expression
`options.unloadDelay || (util.isServer) ? 0 : 1000` parses as
`(options.unloadDelay || util.isServer) ? 0 : 1000`, so a configured
positive `unloadDelay` of 500 on a client yields 0, and the decrement then
runs synchronously with no timer armed, against the claim's configured
delay (the intended initialization is `intendedUnloadDelay`). -/
theorem claim_C3 :
    initUnloadDelay (some 500) false = 0 ∧
    intendedUnloadDelay (some 500) false = 500 ∧
    initUnloadDelay none false = 1000 ∧
    initUnloadDelay none true = 0 ∧
    intendedUnloadDelay none false = 1000 ∧
    intendedUnloadDelay none true = 0 ∧
    (∀ (α : Type) (st : SubState α) (p : PassedCtx) (d : Nat) (c id : String),
      st.fetchedDocs c id ≠ 0 → d ≠ 0 →
      unfetchDoc st p d c id = (st, .timerArmed d)) ∧
    (∀ (α : Type) (st : SubState α) (p : PassedCtx) (d : Nat) (fo : Bool)
      (sr : Option String) (c id : String),
      st.subscribedDocs c id ≠ 0 → d ≠ 0 →
      unsubscribeDoc st p d fo sr c id = (st, .timerArmed d)) ∧
    (∀ (α : Type) (st : SubState α) (p : PassedCtx) (c id : String),
      st.fetchedDocs c id ≠ 0 →
      unfetchDoc st p (initUnloadDelay (some 500) false) c id =
        ((finishUnfetchDoc st p c id).1,
          .finished (finishUnfetchDoc st p c id).2.1 (finishUnfetchDoc st p c id).2.2)) := by
  refine ⟨rfl, rfl, rfl, rfl, rfl, rfl, ?_, ?_, ?_⟩
  · intro α st p d c id h hd
    simp [unfetchDoc, h, hd]
  · intro α st p d fo sr c id h hd
    simp [unsubscribeDoc, h, hd]
  · intro α st p c id h
    simp [unfetchDoc, h, initUnloadDelay]

theorem claim_C3_witness :
    c3St.fetchedDocs "posts" "1" ≠ 0 ∧
    (500 : Nat) ≠ 0 ∧
    unfetchDoc c3St pNone 500 "posts" "1" = (c3St, .timerArmed 500) ∧
    unfetchDoc c3St pNone (initUnloadDelay (some 500) false) "posts" "1" =
      ((finishUnfetchDoc c3St pNone "posts" "1").1,
        .finished (finishUnfetchDoc c3St pNone "posts" "1").2.1
          (finishUnfetchDoc c3St pNone "posts" "1").2.2) :=
  ⟨by decide, by decide,
    claim_C3.2.2.2.2.2.2.1 Nat c3St pNone 500 "posts" "1" (by decide) (by decide),
    claim_C3.2.2.2.2.2.2.2.2 Nat c3St pNone "posts" "1" (by decide)⟩

end Racer
